import Mathlib

/-!
Verification development for the GenericMongooseCrudService repository
(src/src/service.ts, src/src/generic-mongoose-crud-service.ts,
src/src/generic-mongoose-crud-service.exceptions.ts).

The service is embedded shallowly: MongoDB documents are association lists of
scalar values plus named arrays of subdocuments, filters and update documents
are association lists, and each service method becomes a pure function from a
collection state (a list of documents) to a result, the new state, the emitted
events and the caller-supplied filter object as it stands after the call
(JavaScript objects are passed by reference, so in-place writes performed by a
method are visible to the caller; the `filterAfter` components model exactly
that object).
-/

set_option autoImplicit false

/-- Scalar BSON-style values stored in document fields.  Dates are modelled as
integer timestamps, ObjectIds as naturals.  `user` actors are passed as an
opaque `BVal`. -/
inductive BVal where
  | null
  | bool (b : Bool)
  | int (n : Int)
  | str (s : String)
  | oid (n : Nat)
deriving DecidableEq, Repr

/-- A filter criterion for one key: either a literal value (Mongo equality
match) or the operator object produced by `getDeletedDefaultFilter`
(service.ts:353), i.e. an `$ne` comparison. -/
inductive FVal where
  | lit (v : BVal)
  | ne (v : BVal)
deriving DecidableEq, Repr

/-- A JavaScript object with `String` keys, in property order. -/
abbrev Obj (α : Type) := List (String × α)

/-- Property read, first occurrence (JS objects hold each key once). -/
def objGet {α : Type} : Obj α → String → Option α
  | [], _ => none
  | (k', v) :: rest, k => if k' = k then some v else objGet rest k

/-- Property write: replaces the value in place when the key exists (JS keeps
the original insertion position), appends otherwise. -/
def objSet {α : Type} : Obj α → String → α → Obj α
  | [], k, v => [(k, v)]
  | (k', v') :: rest, k, v =>
      if k' = k then (k', v) :: rest else (k', v') :: objSet rest k v

/-- `Object.assign(target, source)`: every property of `source` is written
into `target`, later writes overriding earlier values. -/
def objAssign {α : Type} (target source : Obj α) : Obj α :=
  source.foldl (fun acc kv => objSet acc kv.1 kv.2) target

/-- The keys of an object, in property order. -/
def objKeys {α : Type} (o : Obj α) : List String := o.map Prod.fst

/-- A subdocument: a one-level-nested record with scalar fields only (the
repository supports exactly one level of nesting). -/
abbrev SubDoc := Obj BVal

/-- A top-level document: scalar fields plus named arrays of subdocuments. -/
structure Doc where
  fields : Obj BVal
  arrays : Obj (List SubDoc)
deriving DecidableEq, Repr

/-- A collection state. -/
abbrev DB := List Doc

/-- Reading a scalar field; a missing field reads as null, which is how Mongo
treats absent fields in comparisons. -/
def fieldVal (d : Doc) (k : String) : BVal :=
  (objGet d.fields k).getD BVal.null

/-- Reading a subdocument field, missing read as null. -/
def subVal (e : SubDoc) (k : String) : BVal :=
  (objGet e k).getD BVal.null

/-- Splits a character list at its first dot. -/
def splitFieldAux : List Char → List Char → String × Option String
  | [], acc => (String.mk acc.reverse, none)
  | c :: rest, acc =>
      if c = Char.ofNat 46 then (String.mk acc.reverse, some (String.mk rest))
      else splitFieldAux rest (c :: acc)

/-- Splits a dotted path at its first dot: `"subs.msg"` becomes
`("subs", some "msg")`, a plain key maps to `(key, none)`. -/
def splitField (k : String) : String × Option String :=
  splitFieldAux k.data []

/-- One criterion against one scalar value. -/
def matchCritVal (v : BVal) : FVal → Bool
  | .lit w => v = w
  | .ne w => ¬ (v = w)

/-- One filter entry against a top-level document.  A plain key reads the
scalar field.  A dotted key into a subdocument array follows Mongo array
semantics: an equality criterion holds when some element matches, an `$ne`
criterion holds when no element has the excluded value. -/
def matchesKey (d : Doc) (k : String) (c : FVal) : Bool :=
  match splitField k with
  | (p, some rest) =>
      match objGet d.arrays p with
      | some elems =>
          match c with
          | .lit w => elems.any fun e => subVal e rest = w
          | .ne w => elems.all fun e => ¬ (subVal e rest = w)
      | none => matchCritVal BVal.null c
  | (p, none) => matchCritVal (fieldVal d p) c

/-- A filter object as a whole against a document: every entry must hold. -/
def matchesDoc (f : Obj FVal) (d : Doc) : Bool :=
  f.all fun kv => matchesKey d kv.1 kv.2

/-- A filter against a subdocument (used by `$pull`). -/
def matchesSub (f : Obj FVal) (e : SubDoc) : Bool :=
  f.all fun kv => matchCritVal (subVal e kv.1) kv.2

/-- A filter object (named `HintedFilter` in the source interfaces; plain
`Filter` collides with Mathlib). -/
abbrev HintedFilter := Obj FVal

/-- `mongoose.Model.findOne`: the first document matching the conditions. -/
def findOneDoc (db : DB) (f : HintedFilter) : Option Doc :=
  db.find? (matchesDoc f)

/-- `mongoose.Model.countDocuments`. -/
def countDocuments (db : DB) (f : HintedFilter) : Nat :=
  (db.filter (matchesDoc f)).length

/-- A raw storage-layer error as surfaced by the MongoDB driver: an error code
and the server message (`errmsg`). -/
structure MongoError where
  code : Int
  errmsg : String
deriving DecidableEq, Repr

/-- The error taxonomy of the service
(src/src/generic-mongoose-crud-service.exceptions.ts) plus raw storage errors
that propagate unmodified.  `duplicateKey` keeps the originating storage error
(the constructor stores `errmsg` as `message` and parses collection, index and
key out of it; nothing in the claims depends on the parse itself). -/
inductive CrudError where
  | documentNotFound (resourceType : String) (resourceId : String)
  | duplicateKey (source : MongoError)
  | mongo (source : MongoError)
deriving DecidableEq, Repr

/-- An emitted event: channel name and the payload document (the payload is
absent exactly when `hardDelete` removed nothing). -/
abbrev Event := String × Option Doc

/-- Renders one scalar value for error messages. -/
def bvalStr : BVal → String
  | .null => "null"
  | .bool b => toString b
  | .int n => toString n
  | .str s => s
  | .oid n => "ObjectId " ++ toString n

/-- Renders one criterion. -/
def fvalStr : FVal → String
  | .lit v => bvalStr v
  | .ne v => "ne " ++ bvalStr v

/-- Stands in for `JSON.stringify(conditions)` when building the
`resourceId` of a `DocumentNotFoundException`; a plain key-value rendering. -/
def stringifyFilter (f : HintedFilter) : String :=
  String.intercalate ", " (f.map fun kv => kv.1 ++ ": " ++ fvalStr kv.2)

/-- An update document as used by the service: an optional `$set` object plus
`$push` entries (one subdocument appended per named array) and `$pull`
entries (elements matching a filter removed from a named array).  These are
the only operators the repository ever builds. -/
structure UpdateDoc where
  set? : Option (Obj BVal) := none
  push : Obj SubDoc := []
  pull : Obj HintedFilter := []
deriving DecidableEq, Repr

/-- `getDefaultUpdate` (service.ts:346): the audit pair stamped on every
update. -/
def getDefaultUpdate (user : BVal) (now : Int) : Obj BVal :=
  [("updatedAt", BVal.int now), ("updatedBy", user)]

/-- `getDeletedDefaultFilter` (service.ts:353). -/
def getDeletedDefaultFilter : FVal :=
  FVal.ne (BVal.bool true)

/-- The effective `$set` built by `update` (service.ts:285):
`update.$set = update.$set ? Object.assign(this.getDefaultUpdate(user), update.$set)
: this.getDefaultUpdate(user)` — the defaults object is the `Object.assign`
target, so caller-supplied `$set` entries override the audit defaults. -/
def effSetOf (u : UpdateDoc) (user : BVal) (now : Int) : Obj BVal :=
  match u.set? with
  | some s => objAssign (getDefaultUpdate user now) s
  | none => getDefaultUpdate user now

/-- The update document actually applied by `update` (service.ts:283-285): the
incoming update with its `$set` replaced by the merged effective `$set`
(the source mutates `update.$set` in place). -/
def effUpdate (u : UpdateDoc) (user : BVal) (now : Int) : UpdateDoc :=
  { u with set? := some (effSetOf u user now) }

/-- The conditions object built by `update` and `get` (service.ts:286,108):
`Object.assign(\x7b deleted: this.getDeletedDefaultFilter() \x7d, filter)` — a
fresh object; the caller's filter overrides the default when it sets
`deleted`. -/
def defaultedConditions (filter : HintedFilter) : HintedFilter :=
  objAssign [("deleted", getDeletedDefaultFilter)] filter

/-- Applying a `$set` object to a document's scalar fields. -/
def applySet (s : Obj BVal) (d : Doc) : Doc :=
  { d with fields := objAssign d.fields s }

/-- `$push`: appends one subdocument to a named array (a missing array field
starts empty, as in Mongo). -/
def applyPush (d : Doc) (k : String) (e : SubDoc) : Doc :=
  { d with arrays := objSet d.arrays k (((objGet d.arrays k).getD []) ++ [e]) }

/-- `$pull`: removes every element matching the filter from a named array. -/
def applyPull (d : Doc) (k : String) (f : HintedFilter) : Doc :=
  { d with arrays := objSet d.arrays k (((objGet d.arrays k).getD []).filter fun e => ¬ matchesSub f e) }

/-- Applies a whole update document. -/
def applyUpdate (u : UpdateDoc) (d : Doc) : Doc :=
  let d1 := match u.set? with
    | some s => applySet s d
    | none => d
  let d2 := u.push.foldl (fun acc kv => applyPush acc kv.1 kv.2) d1
  u.pull.foldl (fun acc kv => applyPull acc kv.1 kv.2) d2

/-- `mongoose.Model.findOneAndUpdate` with `new: true`: updates the first
matching document in place and returns the post-update state. -/
def findOneAndUpdate : DB → HintedFilter → UpdateDoc → Option Doc × DB
  | [], _, _ => (none, [])
  | d :: rest, f, u =>
      if matchesDoc f d then (some (applyUpdate u d), applyUpdate u d :: rest)
      else
        let out := findOneAndUpdate rest f u
        (out.1, d :: out.2)

/-- `mongoose.Model.findByIdAndDelete`: removes the document with the given id
(no soft-delete criterion at all) and returns it. -/
def findByIdAndDelete : DB → Nat → Option Doc × DB
  | [], _ => (none, [])
  | d :: rest, id =>
      if fieldVal d "_id" = BVal.oid id then (some d, rest)
      else
        let out := findByIdAndDelete rest id
        (out.1, d :: out.2)

/-- Decidable equality for `Except`, so that concrete operation outcomes can
be settled by `decide`. -/
instance {ε α : Type} [DecidableEq ε] [DecidableEq α] : DecidableEq (Except ε α) := fun x y =>
  match x, y with
  | .ok a, .ok b =>
      if h : a = b then isTrue (by rw [h]) else isFalse (by intro hh; cases hh; exact h rfl)
  | .error a, .error b =>
      if h : a = b then isTrue (by rw [h]) else isFalse (by intro hh; cases hh; exact h rfl)
  | .ok _, .error _ => isFalse (by intro hh; cases hh)
  | .error _, .ok _ => isFalse (by intro hh; cases hh)

/-- Result of a write operation: the value or exception, the collection
afterwards, the events emitted, and the caller's filter object after the call
(`update` never writes into its filter argument — the defaulted conditions go
into a fresh `Object.assign` target). -/
structure WriteOut where
  result : Except CrudError Doc
  dbAfter : DB
  events : List Event
  filterAfter : HintedFilter
deriving DecidableEq, Repr

/-- `update` (service.ts:283-298): stamps the audit defaults into `$set`,
builds the defaulted conditions, performs the find-and-modify, emits `PATCH`
on the updated document, and throws `DocumentNotFoundException` when nothing
matched. -/
def updateOp (db : DB) (modelName : String) (filter : HintedFilter) (u : UpdateDoc)
    (user : BVal) (now : Int) : WriteOut :=
  let conditions := defaultedConditions filter
  let out := findOneAndUpdate db conditions (effUpdate u user now)
  match out.1 with
  | none =>
      { result := .error (.documentNotFound modelName (stringifyFilter conditions))
        dbAfter := out.2, events := [], filterAfter := filter }
  | some inst =>
      { result := .ok inst, dbAfter := out.2
        events := [("PATCH", some inst)], filterAfter := filter }

/-- `patch` (service.ts:220): `update(filter, \x7b $set: update \x7d, user)`. -/
def patchOp (db : DB) (modelName : String) (filter : HintedFilter) (upd : Obj BVal)
    (user : BVal) (now : Int) : WriteOut :=
  updateOp db modelName filter { set? := some upd } user now

/-- `patchById` (service.ts:225): `patch` against `\x7b _id \x7d`. -/
def patchById (db : DB) (modelName : String) (id : Nat) (upd : Obj BVal)
    (user : BVal) (now : Int) : WriteOut :=
  patchOp db modelName [("_id", FVal.lit (BVal.oid id))] upd user now

/-- `updateById` (service.ts:300). -/
def updateById (db : DB) (modelName : String) (id : Nat) (u : UpdateDoc)
    (user : BVal) (now : Int) : WriteOut :=
  updateOp db modelName [("_id", FVal.lit (BVal.oid id))] u user now

/-- `softDelete` (service.ts:263): `patchById` with the soft-delete payload. -/
def softDelete (db : DB) (modelName : String) (id : Nat) (user : BVal) (now : Int) : WriteOut :=
  patchById db modelName id
    [("deleted", BVal.bool true), ("deletedAt", BVal.int now), ("deletedBy", user)]
    user now

/-- `hardDelete` output: the removed document when one existed (the operation
never throws), the collection afterwards and the `DELETED` event. -/
structure DeleteOut where
  result : Option Doc
  dbAfter : DB
  events : List Event
deriving DecidableEq, Repr

/-- `hardDelete` (service.ts:148-156): `findByIdAndDelete` — only the id is
used, no soft-delete criterion — then emits `DELETED` with whatever was
removed, possibly an absent value. -/
def hardDelete (db : DB) (id : Nat) : DeleteOut :=
  let out := findByIdAndDelete db id
  { result := out.1, dbAfter := out.2, events := [("DELETED", out.1)] }

/-- JavaScript truthiness of a filter criterion value: an operator object such
as `\x7b $ne: true \x7d` is an object and therefore truthy; a literal is as
truthy as its value (`false`, `0`, the empty string and `null`/`undefined` are
falsy). -/
def fvTruthy : FVal → Bool
  | .ne _ => true
  | .lit .null => false
  | .lit (.bool b) => b
  | .lit (.int n) => ¬ (n = 0)
  | .lit (.str s) => ¬ (s = "")
  | .lit (.oid _) => true

/-- The in-place write `count` performs on the caller's filter
(service.ts:67): `filter.deleted = filter.deleted ? filter.deleted :
\x7b $ne: true \x7d` — a truthiness test, not an undefined test. -/
def countFilterWrite (f : HintedFilter) : HintedFilter :=
  match objGet f "deleted" with
  | some v => if fvTruthy v then objSet f "deleted" v else objSet f "deleted" getDeletedDefaultFilter
  | none => objSet f "deleted" getDeletedDefaultFilter

/-- The in-place write `list` performs on the caller's filter
(service.ts:176): `filter.deleted = filter.deleted !== undefined ?
filter.deleted : this.getDeletedDefaultFilter()`. -/
def listFilterWrite (f : HintedFilter) : HintedFilter :=
  match objGet f "deleted" with
  | some v => objSet f "deleted" v
  | none => objSet f "deleted" getDeletedDefaultFilter

/-- The conditional in-place write `listSubdocuments` and `countSubdocuments`
perform (service.ts:190-192, 77-79): only when `filter.deleted === undefined`. -/
def subFilterWrite (f : HintedFilter) : HintedFilter :=
  match objGet f "deleted" with
  | some _ => f
  | none => objSet f "deleted" getDeletedDefaultFilter

/-- `count` output: the count and the caller's filter object after the call
(mutated in place by `countFilterWrite`). -/
structure CountOut where
  value : Nat
  filterAfter : HintedFilter
deriving DecidableEq, Repr

/-- `count` (service.ts:66-69). -/
def countOp (db : DB) (filter : HintedFilter) : CountOut :=
  let f' := countFilterWrite filter
  { value := countDocuments db f', filterAfter := f' }

/-- Total order on scalar values following BSON type ranking
(null < numbers < strings < ObjectId < booleans); used only to model the
store's sort, which no claim depends on beyond the empty / single-document
cases. -/
def bvalLe : BVal → BVal → Bool
  | .null, _ => true
  | _, .null => false
  | .int a, .int b => a ≤ b
  | .int _, _ => true
  | _, .int _ => false
  | .str a, .str b => a ≤ b
  | .str _, _ => true
  | _, .str _ => false
  | .oid a, .oid b => a ≤ b
  | .oid _, _ => true
  | _, .oid _ => false
  | .bool a, .bool b => a ≤ b

/-- The value a sort key reads from a document: a dotted path into a
subdocument array reads the least element value (Mongo ascending-sort
behaviour for array fields; the pipelines below only ever sort streams of at
most one document, so the choice is immaterial there). -/
def sortVal (d : Doc) (k : String) : BVal :=
  match splitField k with
  | (p, some rest) =>
      match objGet d.arrays p with
      | some elems => (elems.map fun e => subVal e rest).foldr
          (fun a b => if bvalLe a b then a else b) BVal.null
      | none => BVal.null
  | (p, none) => fieldVal d p

/-- Document comparison under a sort specification (field to direction). -/
def docCmpLe (spec : Obj Int) (a b : Doc) : Bool :=
  match spec with
  | [] => true
  | (k, dir) :: rest =>
      let va := sortVal a k
      let vb := sortVal b k
      if va = vb then docCmpLe rest a b
      else if 0 ≤ dir then bvalLe va vb else bvalLe vb va

/-- Insertion step of a stable sort. -/
def insertLe {α : Type} (le : α → α → Bool) (x : α) : List α → List α
  | [] => [x]
  | y :: ys => if le x y then x :: y :: ys else y :: insertLe le x ys

/-- Insertion sort by a boolean order. -/
def sortByLe {α : Type} (le : α → α → Bool) : List α → List α
  | [] => []
  | x :: xs => insertLe le x (sortByLe le xs)

/-- The store's sort option: an empty specification leaves the natural
order untouched. -/
def applySort (spec : Obj Int) (docs : List Doc) : List Doc :=
  match spec with
  | [] => docs
  | _ => sortByLe (docCmpLe spec) docs

/-- The store's skip/limit options (absent means not applied). -/
def applyPage {α : Type} (skip? limit? : Option Nat) (l : List α) : List α :=
  let l1 := l.drop (skip?.getD 0)
  match limit? with
  | none => l1
  | some m => l1.take m

/-- `list` output: the documents and the caller's filter after the call. -/
structure ListOut where
  docs : List Doc
  filterAfter : HintedFilter
deriving DecidableEq, Repr

/-- `list` (service.ts:174-178): writes the soft-delete default into the
caller's filter in place, then `model.find(filter, projection,
\x7b sort, skip, limit \x7d)`. -/
def listOp (db : DB) (filter : HintedFilter) (limit? skip? : Option Nat)
    (sort : Obj Int) : ListOut :=
  let f' := listFilterWrite filter
  { docs := applyPage skip? limit? (applySort sort (db.filter (matchesDoc f')))
    filterAfter := f' }

/-- `get` output: the document or exception, and the caller's filter after
the call (`get` assigns into a fresh conditions object, never into the
caller's filter). -/
structure GetOut where
  result : Except CrudError Doc
  filterAfter : HintedFilter
deriving DecidableEq, Repr

/-- `get` (service.ts:106-114). -/
def getOp (db : DB) (modelName : String) (filter : HintedFilter) : GetOut :=
  let conditions := defaultedConditions filter
  match findOneDoc db conditions with
  | some inst => { result := .ok inst, filterAfter := filter }
  | none =>
      { result := .error (.documentNotFound modelName (stringifyFilter conditions))
        filterAfter := filter }

/-- `getById` (service.ts:116-119): `get(\x7b filter: \x7b _id \x7d \x7d)`. -/
def getById (db : DB) (modelName : String) (id : Nat) : GetOut :=
  getOp db modelName [("_id", FVal.lit (BVal.oid id))]

/-- `formatQueryForAggregation` (service.ts:315-323): every key `k` of the
input is rewritten to `field.k`. -/
def formatQueryForAggregation {α : Type} (input : Obj α) (field : String) : Obj α :=
  input.foldl (fun result kv => objSet result (field ++ "." ++ kv.1) kv.2) []

/-- Mongo `$slice: [array, skip, limit]`: with a nonnegative position the
window starts there (an out-of-range position yields the empty array), a
negative position counts from the end; the claims only exercise nonnegative
positions and positive limits. -/
def mongoSlice {α : Type} (xs : List α) (skip limit : Int) : List α :=
  let n : Int := xs.length
  let start : Nat := if skip < 0 then (max (n + skip) 0).toNat else min skip.toNat xs.length
  (xs.drop start).take limit.toNat

/-- Resolving one transformed-filter entry against an unwound document: a key
carrying the unwind field's dot prefix reads the single element, any other key
reads the parent document's scalar fields (`formatQueryForAggregation` always
produces the prefixed form). -/
def unwoundVal (field : String) (d : Doc) (e : SubDoc) (k : String) : BVal :=
  match splitField k with
  | (p, some rest) => if p = field then subVal e rest else BVal.null
  | (p, none) => if p = field then BVal.null else fieldVal d p

/-- A transformed filter against one unwound document. -/
def matchesUnwound (field : String) (d : Doc) (e : SubDoc) (f : HintedFilter) : Bool :=
  f.all fun kv => matchCritVal (unwoundVal field d e kv.1) kv.2

/-- The `$match → $limit 1 → $unwind field → $match transformedFilter` head
shared by the `listSubdocuments` and `countSubdocuments` pipelines
(service.ts:200-205, 81-86).  `$unwind` emits one document per array element
in array order, each carrying the parent's fields with the array field
replaced by the single element. -/
def aggMatchedElems (db : DB) (parentId : Nat) (field : String)
    (tFilter : HintedFilter) : List SubDoc :=
  let matched := (db.filter (matchesDoc [("_id", FVal.lit (BVal.oid parentId))])).take 1
  let unwound := matched.flatMap fun d =>
    ((objGet d.arrays field).getD []).map fun e => (d, e)
  (unwound.filter fun de => matchesUnwound field de.1 de.2 tFilter).map Prod.snd

/-- The post-`$group` document of the subdocument pipelines: `$group` by
`$_id` pushes the unwound elements back into the array field, in arrival
order. -/
def groupDoc (parentId : Nat) (field : String) (elems : List SubDoc) : Doc :=
  { fields := [("_id", BVal.oid parentId)], arrays := [(field, elems)] }

/-- `listSubdocuments` output: the window or exception, and the caller's
filter after the call. -/
structure SubListOut where
  result : Except CrudError (List SubDoc)
  filterAfter : HintedFilter
deriving DecidableEq, Repr

/-- `listSubdocuments` (service.ts:186-218): defaults `deleted` into the
caller's filter when unset, rewrites filter and sort keys with the field
prefix, requires the parent to exist under the soft-delete default, then runs
`$match _id → $limit 1 → $unwind → $match → $group ($push) → $project ($slice
[skip, limit]) → $sort` and returns the array of the last result document, or
the empty sequence when the pipeline yields no group.  Note the `$sort` stage
comes after `$group` has collapsed the stream to at most one document, so it
orders that single document, never the array elements. -/
def listSubdocuments (db : DB) (modelName : String) (parentId : Nat) (field : String)
    (filter : HintedFilter) (limit skip : Int) (sort : Obj Int) : SubListOut :=
  let f' := subFilterWrite filter
  let tSort := formatQueryForAggregation sort field
  let tFilter := formatQueryForAggregation f' field
  let parentMatches := countDocuments db [("_id", FVal.lit (BVal.oid parentId)), ("deleted", getDeletedDefaultFilter)]
  if parentMatches ≤ 0 then
    { result := .error (.documentNotFound modelName (toString parentId)), filterAfter := f' }
  else
    let elems := aggMatchedElems db parentId field tFilter
    let grouped : List Doc := if elems.isEmpty then [] else [groupDoc parentId field elems]
    let projected := grouped.map fun g =>
      groupDoc parentId field (mongoSlice (((objGet g.arrays field).getD [])) skip limit)
    let sorted := sortByLe (docCmpLe tSort) projected
    match sorted.getLast? with
    | some g => { result := .ok ((objGet g.arrays field).getD []), filterAfter := f' }
    | none => { result := .ok [], filterAfter := f' }

/-- `countSubdocuments` output. -/
structure SubCountOut where
  result : Except CrudError Nat
  filterAfter : HintedFilter
deriving DecidableEq, Repr

/-- `countSubdocuments` (service.ts:71-96): the parent-existence check comes
first (so a missing parent leaves the caller's filter untouched), then the
same unwind/match/group pipeline projected onto `$size`. -/
def countSubdocuments (db : DB) (modelName : String) (parentId : Nat) (field : String)
    (filter : HintedFilter) : SubCountOut :=
  let parentMatches := countDocuments db [("_id", FVal.lit (BVal.oid parentId)), ("deleted", getDeletedDefaultFilter)]
  if parentMatches ≤ 0 then
    { result := .error (.documentNotFound modelName (toString parentId)), filterAfter := filter }
  else
    let f' := subFilterWrite filter
    let tFilter := formatQueryForAggregation f' field
    let elems := aggMatchedElems db parentId field tFilter
    let counts : List Nat := if elems.isEmpty then [] else [elems.length]
    match counts.getLast? with
    | some c => { result := .ok c, filterAfter := f' }
    | none => { result := .ok 0, filterAfter := f' }

/-- The synchronous behaviour of a JavaScript callback as observed by a plain
`try/catch`: either it throws synchronously, or it returns a promise whose
later settlement carries the value or the storage error.  An arrow such as
`() => instance.save(options)` is of the second form — server-reported errors,
duplicate-key violations among them, settle the promise and never throw
synchronously. -/
inductive CallbackRun (α : Type) where
  | syncThrow (e : MongoError)
  | promise (settle : Except MongoError α)
deriving DecidableEq, Repr

/-- `handleMongoError` (service.ts:357-366): a synchronous `try/catch` around
`callback()`.  Only a synchronous throw reaches the catch block (where code
11000 becomes a `DuplicateKeyException`); a returned promise passes through
unchanged because the try block has already exited by the time it settles. -/
def handleMongoError {α : Type} : CallbackRun α → Except CrudError (Except MongoError α)
  | .syncThrow e =>
      if e.code = 11000 then .error (.duplicateKey e) else .error (.mongo e)
  | .promise p => .ok p

/-- `create` output. -/
structure CreateOut where
  result : Except CrudError Doc
  dbAfter : DB
  events : List Event
deriving DecidableEq, Repr

/-- `create` (service.ts:98-104): builds the instance with
`\x7b ...data, createdAt: now, createdBy: user \x7d` (the literal's later keys
override any the caller supplied), runs
`await this.handleMongoError(() => instance.save(options))` — the callback
returns a promise, so `handleMongoError` passes it through and the `await`
re-raises a rejection as the raw storage error — then emits `CREATED`.
`saveOutcome` is the storage layer's settlement of `instance.save`. -/
def createOp (db : DB) (data : Obj BVal) (user : BVal) (now : Int)
    (saveOutcome : Except MongoError Unit) : CreateOut :=
  let inst : Doc :=
    { fields := objSet (objSet data "createdAt" (BVal.int now)) "createdBy" user
      arrays := [] }
  match handleMongoError (CallbackRun.promise saveOutcome) with
  | .error ce => { result := .error ce, dbAfter := db, events := [] }
  | .ok p =>
      match p with
      | .error e => { result := .error (.mongo e), dbAfter := db, events := [] }
      | .ok _ =>
          { result := .ok inst, dbAfter := db ++ [inst]
            events := [("CREATED", some inst)] }

/-- An opaque session handle (`startSession`). -/
structure MSession where
  sid : Nat
deriving DecidableEq, Repr

/-- `withTransaction` from service.ts:305-313: `let result; await
session.withTransaction(async s => \x7b result = await fn(s) \x7d); return
result`.  The transaction promise is awaited, so by the time `result` is
returned the callback has run and assigned it; the external session machinery
is modelled as invoking the callback once.  The `Option` carries the
JavaScript `let result: T` declaration, `none` being `undefined`. -/
def withTransaction_service {α : Type} (fn : MSession → α) (s : MSession) : Option α :=
  some (fn s)

/-- `withTransaction` from generic-mongoose-crud-service.ts:314-322: the
`session.withTransaction(...)` promise is NOT awaited, so `return result`
executes before the transaction callback has run; `result` still holds its
`let result: T` value, i.e. `undefined`. -/
def withTransaction_generic {α : Type} (_fn : MSession → α) (_s : MSession) : Option α :=
  let result : Option α := none
  result

/-- The `db` accessor (service.ts:38-40 and
generic-mongoose-crud-service.ts:24-26): `get db(): Db \x7b return this.db; \x7d`.
Reading `this.db` inside the getter invokes the very same getter, so the read
recurses into itself; the `Nat` argument is the remaining call depth, and
producing a value would require the recursion to bottom out, which it never
does (in JavaScript the stack overflows). -/
def dbGetter (Db : Type) : Nat → Option Db
  | 0 => none
  | n + 1 => dbGetter Db n

theorem objKeys_nil {α : Type} : objKeys ([] : Obj α) = [] := rfl

theorem objKeys_cons {α : Type} (hd : String × α) (tl : Obj α) :
    objKeys (hd :: tl) = hd.1 :: objKeys tl := rfl

theorem objGet_objSet_self {α : Type} (o : Obj α) (k : String) (v : α) :
    objGet (objSet o k v) k = some v := by
  induction o with
  | nil => simp [objSet, objGet]
  | cons hd tl ih =>
      by_cases h : hd.1 = k
      · simp [objSet, objGet, h]
      · simp [objSet, objGet, h, ih]

theorem objGet_objSet_ne {α : Type} (o : Obj α) (k k' : String) (v : α) (h : k' ≠ k) :
    objGet (objSet o k' v) k = objGet o k := by
  induction o with
  | nil => simp [objSet, objGet, h]
  | cons hd tl ih =>
      by_cases h1 : hd.1 = k'
      · simp [objSet, objGet, h1, h]
      · simp only [objSet, if_neg h1]
        by_cases h2 : hd.1 = k
        · simp [objGet, h2]
        · simp [objGet, h2, ih]

theorem mem_objKeys_iff_objGet {α : Type} (o : Obj α) (k : String) :
    k ∈ objKeys o ↔ (objGet o k).isSome := by
  induction o with
  | nil => simp [objKeys, objGet]
  | cons hd tl ih =>
      by_cases h : hd.1 = k
      · simp [objKeys_cons, objGet, h]
      · have h' : ¬(k = hd.1) := fun hh => h hh.symm
        simp [objKeys_cons, objGet, h, h', ih]

theorem objGet_eq_none_of_not_mem {α : Type} (o : Obj α) (k : String)
    (h : k ∉ objKeys o) : objGet o k = none := by
  by_contra hne
  exact h ((mem_objKeys_iff_objGet o k).mpr (Option.isSome_iff_ne_none.mpr hne))

theorem mem_objKeys_objSet {α : Type} (o : Obj α) (k : String) (v : α) (k' : String) :
    k' ∈ objKeys (objSet o k v) ↔ k' ∈ objKeys o ∨ k' = k := by
  by_cases h : k' = k
  · subst h
    simp [mem_objKeys_iff_objGet, objGet_objSet_self]
  · rw [mem_objKeys_iff_objGet, objGet_objSet_ne o k' k v (Ne.symm h), ← mem_objKeys_iff_objGet]
    simp [h]

theorem objAssign_cons_eq {α : Type} (t : Obj α) (hd : String × α) (tl : Obj α) :
    objAssign t (hd :: tl) = objAssign (objSet t hd.1 hd.2) tl := rfl

theorem objGet_objAssign_not_mem {α : Type} (t s : Obj α) (k : String)
    (h : k ∉ objKeys s) : objGet (objAssign t s) k = objGet t k := by
  induction s generalizing t with
  | nil => simp [objAssign]
  | cons hd tl ih =>
      have hk1 : hd.1 ≠ k := fun he => h (by simp [objKeys_cons, he])
      have hk2 : k ∉ objKeys tl := fun hm => h (by simp [objKeys_cons]; exact Or.inr hm)
      rw [objAssign_cons_eq, ih (objSet t hd.1 hd.2) hk2,
        objGet_objSet_ne t k hd.1 hd.2 hk1]

theorem objGet_objAssign_mem {α : Type} (t s : Obj α) (k : String) (v : α)
    (hnd : (objKeys s).Nodup) (h : objGet s k = some v) :
    objGet (objAssign t s) k = some v := by
  induction s generalizing t with
  | nil => simp [objGet] at h
  | cons hd tl ih =>
      have hnd' : (hd.1 :: objKeys tl).Nodup := hnd
      rw [objAssign_cons_eq]
      by_cases hk : hd.1 = k
      · have hv : hd.2 = v := by simpa [objGet, hk] using h
        have hknotin : k ∉ objKeys tl := fun hm => (List.nodup_cons.mp hnd').1 (hk ▸ hm)
        rw [objGet_objAssign_not_mem _ _ _ hknotin, ← hk, objGet_objSet_self, hv]
      · have h' : objGet tl k = some v := by simpa [objGet, hk] using h
        exact ih (objSet t hd.1 hd.2) (List.nodup_cons.mp hnd').2 h'

theorem mem_objKeys_objAssign {α : Type} (t s : Obj α) (k : String) :
    k ∈ objKeys (objAssign t s) ↔ k ∈ objKeys t ∨ k ∈ objKeys s := by
  induction s generalizing t with
  | nil => simp [objAssign, objKeys]
  | cons hd tl ih =>
      rw [objAssign_cons_eq, ih, mem_objKeys_objSet, objKeys_cons]
      simp only [List.mem_cons]
      tauto

theorem matchesDoc_nil (d : Doc) : matchesDoc [] d = true := rfl

theorem matchesDoc_cons (k : String) (c : FVal) (rest : HintedFilter) (d : Doc) :
    matchesDoc ((k, c) :: rest) d = (matchesKey d k c && matchesDoc rest d) := by
  simp [matchesDoc]

theorem matchesKey_plain (d : Doc) (k : String) (c : FVal)
    (h : splitField k = (k, none)) : matchesKey d k c = matchCritVal (fieldVal d k) c := by
  simp [matchesKey, h]

theorem splitField_id : splitField "_id" = ("_id", none) := by decide

theorem splitField_deleted : splitField "deleted" = ("deleted", none) := by decide

theorem splitField_updatedAt : splitField "updatedAt" = ("updatedAt", none) := by decide

theorem splitField_createdAt : splitField "createdAt" = ("createdAt", none) := by decide

theorem findOneDoc_eq_none_iff (db : DB) (f : HintedFilter) :
    findOneDoc db f = none ↔ ∀ d ∈ db, matchesDoc f d = false := by
  simp [findOneDoc, List.find?_eq_none]

theorem findOneDoc_mem (db : DB) (f : HintedFilter) (d : Doc)
    (h : findOneDoc db f = some d) : d ∈ db ∧ matchesDoc f d = true :=
  ⟨List.mem_of_find?_eq_some h, List.find?_some h⟩

theorem findOneAndUpdate_fst (db : DB) (f : HintedFilter) (u : UpdateDoc) :
    (findOneAndUpdate db f u).1 = (findOneDoc db f).map (applyUpdate u) := by
  induction db with
  | nil => simp [findOneAndUpdate, findOneDoc]
  | cons d rest ih =>
      by_cases h : matchesDoc f d
      · simp [findOneAndUpdate, findOneDoc, List.find?, h]
      · simpa [findOneAndUpdate, findOneDoc, List.find?, h] using ih

theorem findOneAndUpdate_snd_of_none (db : DB) (f : HintedFilter) (u : UpdateDoc)
    (h : findOneDoc db f = none) : (findOneAndUpdate db f u).2 = db := by
  induction db with
  | nil => simp [findOneAndUpdate]
  | cons d rest ih =>
      have hd : matchesDoc f d = false := by
        have := (findOneDoc_eq_none_iff _ f).mp h
        exact this d (List.mem_cons_self d rest)
      have hrest : findOneDoc rest f = none := by
        rw [findOneDoc_eq_none_iff] at h ⊢
        exact fun x hx => h x (List.mem_cons_of_mem d hx)
      simp [findOneAndUpdate, hd, ih hrest]

theorem findOneAndUpdate_decomp (db : DB) (f : HintedFilter) (u : UpdateDoc) (m : Doc)
    (h : findOneDoc db f = some m) :
    ∃ pre post, db = pre ++ m :: post ∧ (∀ x ∈ pre, matchesDoc f x = false) ∧
      matchesDoc f m = true ∧
      (findOneAndUpdate db f u).2 = pre ++ applyUpdate u m :: post := by
  induction db with
  | nil => simp [findOneDoc, List.find?] at h
  | cons d rest ih =>
      by_cases hd : matchesDoc f d
      · have hm : d = m := by
          have : some d = some m := by simpa [findOneDoc, List.find?, hd] using h
          exact Option.some.inj this
        subst hm
        exact ⟨[], rest, by simp, by simp, hd, by simp [findOneAndUpdate, hd]⟩
      · have h' : findOneDoc rest f = some m := by
          simpa [findOneDoc, List.find?, hd] using h
        obtain ⟨pre, post, hdb, hpre, hmatch, hsnd⟩ := ih h'
        refine ⟨d :: pre, post, by simp [hdb], ?_, hmatch, ?_⟩
        · intro x hx
          rcases List.mem_cons.mp hx with hx | hx
          · simpa [hx] using (by simpa using hd)
          · exact hpre x hx
        · simp [findOneAndUpdate, hd, hsnd]

theorem objKeys_objSet_eq {α : Type} (o : Obj α) (k : String) (v : α) :
    objKeys (objSet o k v) = if k ∈ objKeys o then objKeys o else objKeys o ++ [k] := by
  induction o with
  | nil => simp [objSet, objKeys]
  | cons hd tl ih =>
      by_cases h : hd.1 = k
      · simp [objSet, objKeys_cons, h]
      · have h' : ¬(k = hd.1) := fun hh => h hh.symm
        by_cases hm : k ∈ objKeys tl
        · simp [objSet, objKeys_cons, h, h', hm, ih]
        · simp [objSet, objKeys_cons, h, h', hm, ih]

theorem objKeys_objSet_nodup {α : Type} (o : Obj α) (k : String) (v : α)
    (h : (objKeys o).Nodup) : (objKeys (objSet o k v)).Nodup := by
  rw [objKeys_objSet_eq]
  by_cases hm : k ∈ objKeys o
  · simpa [hm] using h
  · rw [if_neg hm]
    refine List.Nodup.append h (List.nodup_singleton k) ?_
    intro a ha hb
    rcases List.mem_singleton.mp hb
    exact hm ha

theorem objKeys_objAssign_nodup {α : Type} (t s : Obj α)
    (h : (objKeys t).Nodup) : (objKeys (objAssign t s)).Nodup := by
  induction s generalizing t with
  | nil => exact h
  | cons hd tl ih =>
      rw [objAssign_cons_eq]
      exact ih (objSet t hd.1 hd.2) (objKeys_objSet_nodup t hd.1 hd.2 h)

/-- The filter `\x7b _id: new ObjectId(id) \x7d` built by the byId aliases. -/
def idFilter (id : Nat) : HintedFilter := [("_id", FVal.lit (BVal.oid id))]

theorem defaultedConditions_id (id : Nat) :
    defaultedConditions (idFilter id)
      = [("deleted", getDeletedDefaultFilter), ("_id", FVal.lit (BVal.oid id))] := by
  simp [defaultedConditions, idFilter, objAssign, objSet,
    show ¬(("deleted" : String) = "_id") by decide]

theorem matchesDoc_softConds (id : Nat) (x : Doc) :
    matchesDoc [("deleted", getDeletedDefaultFilter), ("_id", FVal.lit (BVal.oid id))] x = true
      ↔ (¬ fieldVal x "deleted" = BVal.bool true ∧ fieldVal x "_id" = BVal.oid id) := by
  simp [matchesDoc, matchesKey, splitField_deleted, splitField_id, matchCritVal,
    getDeletedDefaultFilter]

theorem matchesDoc_idOnly (id : Nat) (x : Doc) :
    matchesDoc (idFilter id) x = decide (fieldVal x "_id" = BVal.oid id) := by
  simp [matchesDoc, idFilter, matchesKey, splitField_id, matchCritVal]

theorem matchesDoc_deletedTrue (x : Doc) :
    matchesDoc [("deleted", FVal.lit (BVal.bool true))] x = true
      ↔ fieldVal x "deleted" = BVal.bool true := by
  simp [matchesDoc, matchesKey, splitField_deleted, matchCritVal]

/-- Recognises a `DocumentNotFoundException` outcome. -/
def isDocNotFound {α : Type} : Except CrudError α → Bool
  | .error (.documentNotFound _ _) => true
  | _ => false

/-- Projects a successful outcome. -/
def okDoc {α : Type} : Except CrudError α → Option α
  | .ok a => some a
  | .error _ => none

theorem updateOp_result (db : DB) (mn : String) (filter : HintedFilter) (u : UpdateDoc)
    (user : BVal) (now : Int) :
    (updateOp db mn filter u user now).result
      = match findOneDoc db (defaultedConditions filter) with
        | some m => .ok (applyUpdate (effUpdate u user now) m)
        | none => .error (.documentNotFound mn (stringifyFilter (defaultedConditions filter))) := by
  unfold updateOp
  dsimp only
  rw [findOneAndUpdate_fst]
  rcases hfind : findOneDoc db (defaultedConditions filter) with _ | m <;> simp

theorem updateOp_dbAfter (db : DB) (mn : String) (filter : HintedFilter) (u : UpdateDoc)
    (user : BVal) (now : Int) :
    (updateOp db mn filter u user now).dbAfter
      = (findOneAndUpdate db (defaultedConditions filter) (effUpdate u user now)).2 := by
  unfold updateOp
  dsimp only
  rcases h : (findOneAndUpdate db (defaultedConditions filter) (effUpdate u user now)).1 with _ | r <;>
    simp [h]

theorem updateOp_filterAfter (db : DB) (mn : String) (filter : HintedFilter) (u : UpdateDoc)
    (user : BVal) (now : Int) :
    (updateOp db mn filter u user now).filterAfter = filter := by
  unfold updateOp
  dsimp only
  rcases h : (findOneAndUpdate db (defaultedConditions filter) (effUpdate u user now)).1 with _ | r <;>
    simp [h]

theorem getOp_filterAfter (db : DB) (mn : String) (filter : HintedFilter) :
    (getOp db mn filter).filterAfter = filter := by
  unfold getOp
  rcases h : findOneDoc db (defaultedConditions filter) with _ | d <;> simp [h]

/-- Subdocument used by the concrete `listSubdocuments` scenario. -/
def demoSub (i : Nat) (m : Int) : SubDoc := [("_id", BVal.oid (10 + i)), ("msg", BVal.int m)]

/-- Parent with five subdocuments whose `msg` values run 5,4,3,2,1 — i.e. the
insertion order is the reverse of ascending `msg` order. -/
def demoParent : Doc :=
  { fields := [("_id", BVal.oid 1), ("value", BVal.str "A")]
    arrays := [("subs", [demoSub 0 5, demoSub 1 4, demoSub 2 3, demoSub 3 2, demoSub 4 1])] }

/-- C1: the claim says `listSubdocuments(parentId, field, \x7b\x7d, limit=3, skip=2,
sort=\x7bmsg:1\x7d)` returns the 3rd through 5th elements in ascending `msg` order
(msg 3,4,5).  On a parent whose array was inserted in descending order the
code instead returns the elements at insertion positions 3-5 — msg 3,2,1, a
descending run — because the `$sort` stage of the pipeline runs after `$group`
has already collapsed the unwound elements into a single document, so the
`sort` argument never reorders the elements; the same call with the opposite
sort direction returns the identical window. -/
theorem c1_listSubdocuments_sort_ineffective :
    (listSubdocuments [demoParent] "Test" 1 "subs" [] 3 2 [("msg", 1)]).result
        = .ok [demoSub 2 3, demoSub 3 2, demoSub 4 1] ∧
    (listSubdocuments [demoParent] "Test" 1 "subs" [] 3 2 [("msg", 1)]).result
        ≠ .ok [demoSub 2 3, demoSub 1 4, demoSub 0 5] ∧
    (listSubdocuments [demoParent] "Test" 1 "subs" [] 3 2 [("msg", -1)]).result
        = (listSubdocuments [demoParent] "Test" 1 "subs" [] 3 2 [("msg", 1)]).result ∧
    (listSubdocuments [demoParent] "Test" 1 "subs" [] 1 7 [("msg", 1)]).result = .ok [] := by
  refine ⟨by decide, by decide, by decide, by decide⟩

/-- The storage error a unique-index violation produces. -/
def dupKeyError : MongoError :=
  { code := 11000
    errmsg := "E11000 duplicate key error collection: test.users index: value_1 dup key: value A" }

/-- C2: the claim says `create` fails with `DuplicateKeyException` when the
store reports a unique-index violation.  In the code the violation reaches
`create` as a rejected promise: `handleMongoError`'s synchronous `try/catch`
around `() => instance.save(options)` cannot observe a promise rejection, so
the raw code-11000 storage error propagates unconverted — even though the
catch branch itself (reachable only for a synchronous throw) would have
produced the `DuplicateKeyException`. -/
theorem c2_create_duplicate_key_not_converted :
    (createOp [] [("value", BVal.str "A")] (BVal.str "alice") 5 (.error dupKeyError)).result
        = .error (.mongo dupKeyError) ∧
    (createOp [] [("value", BVal.str "A")] (BVal.str "alice") 5 (.error dupKeyError)).result
        ≠ .error (.duplicateKey dupKeyError) ∧
    handleMongoError (CallbackRun.syncThrow dupKeyError)
        = (.error (.duplicateKey dupKeyError) : Except CrudError (Except MongoError Unit)) := by
  refine ⟨by decide, by decide, by decide⟩

/-- C8: the claim says `withTransaction(fn)` returns the value `fn` produced.
The service.ts implementation awaits the transaction and does return `fn`'s
result, but the generic-mongoose-crud-service.ts implementation never awaits
`session.withTransaction(...)`, so it returns `result` before the callback
has assigned it — i.e. `undefined`, not `fn`'s value. -/
theorem c8_withTransaction_generic_returns_undefined :
    withTransaction_generic (fun _ => (42 : Nat)) { sid := 0 } = none ∧
    withTransaction_service (fun _ => (42 : Nat)) { sid := 0 } = some 42 ∧
    withTransaction_generic (fun _ => (42 : Nat)) { sid := 0 }
        ≠ withTransaction_service (fun _ => (42 : Nat)) { sid := 0 } := by
  refine ⟨rfl, rfl, by decide⟩

/-- C9: the claim says reading the `db` accessor terminates and returns the
model's underlying database handle.  The getter body is `return this.db`,
which re-invokes the same getter: no call depth suffices for the recursion to
produce a value (in JavaScript the stack overflows). -/
theorem c9_db_getter_diverges (Db : Type) (fuel : Nat) : dbGetter Db fuel = none := by
  induction fuel with
  | zero => rfl
  | succ n ih => exact ih

/-- C4 counterexample: the claim says an explicitly set `deleted` value —
including `false` — is used unchanged in the query `count` sends to the
store.  `count` tests `filter.deleted` for truthiness, so an explicit
`deleted: false` is replaced by the soft-delete default `\x7b $ne: true \x7d`;
observably, a document without a `deleted` field is counted even though the
caller's filter `deleted: false` does not match it. -/
theorem c4_count_deleted_false_counterexample :
    (countOp [] [("deleted", FVal.lit (BVal.bool false))]).filterAfter
        = [("deleted", FVal.ne (BVal.bool true))] ∧
    FVal.ne (BVal.bool true) ≠ FVal.lit (BVal.bool false) ∧
    (countOp [{ fields := [("_id", BVal.oid 1)], arrays := [] }]
        [("deleted", FVal.lit (BVal.bool false))]).value = 1 ∧
    matchesDoc [("deleted", FVal.lit (BVal.bool false))]
        { fields := [("_id", BVal.oid 1)], arrays := [] } = false := by
  refine ⟨by decide, by decide, by decide, by decide⟩

/-- C4 (amended): `list` applies the soft-delete default iff the filter
leaves `deleted` unset and otherwise uses the caller's value unchanged;
`count` applies the default whenever `deleted` is unset or set to a JS-falsy
value (`false`, `0`, the empty string, `null`), and uses the caller's value
unchanged only when it is truthy (such as `true` or an operator object). -/
theorem c4_soft_delete_default_amended (db : DB) (f : HintedFilter) (v : FVal) :
    (objGet f "deleted" = none →
      (listOp db f none none []).filterAfter = objSet f "deleted" getDeletedDefaultFilter ∧
      (countOp db f).filterAfter = objSet f "deleted" getDeletedDefaultFilter) ∧
    (objGet f "deleted" = some v →
      (listOp db f none none []).filterAfter = objSet f "deleted" v) ∧
    (objGet f "deleted" = some v → fvTruthy v = true →
      (countOp db f).filterAfter = objSet f "deleted" v) ∧
    (objGet f "deleted" = some v → fvTruthy v = false →
      (countOp db f).filterAfter = objSet f "deleted" getDeletedDefaultFilter) := by
  refine ⟨fun h => ⟨?_, ?_⟩, fun h => ?_, fun h ht => ?_, fun h ht => ?_⟩
  · simp [listOp, listFilterWrite, h]
  · simp [countOp, countFilterWrite, h]
  · simp [listOp, listFilterWrite, h]
  · simp [countOp, countFilterWrite, h, ht]
  · simp [countOp, countFilterWrite, h, ht]

/-- Closed instance of the amended C4 statement: a truthy explicit value is
kept by `count`, an absent one is defaulted by `list`. -/
theorem c4_soft_delete_default_amended_witness :
    (countOp [] [("deleted", FVal.lit (BVal.bool true))]).filterAfter
        = [("deleted", FVal.lit (BVal.bool true))] ∧
    (listOp [] [] none none []).filterAfter = [("deleted", FVal.ne (BVal.bool true))] := by
  constructor
  · exact ((c4_soft_delete_default_amended [] [("deleted", FVal.lit (BVal.bool true))]
      (FVal.lit (BVal.bool true))).2.2.1 rfl rfl).trans (by decide)
  · exact (((c4_soft_delete_default_amended [] [] (FVal.lit BVal.null)).1 rfl).1).trans (by decide)

theorem findByIdAndDelete_fst (db : DB) (id : Nat) :
    (findByIdAndDelete db id).1 = findOneDoc db (idFilter id) := by
  induction db with
  | nil => simp [findByIdAndDelete, findOneDoc]
  | cons d rest ih =>
      by_cases h : fieldVal d "_id" = BVal.oid id
      · simp [findByIdAndDelete, h, findOneDoc, List.find?, matchesDoc_idOnly]
      · simpa [findByIdAndDelete, h, findOneDoc, List.find?, matchesDoc_idOnly] using ih

theorem findByIdAndDelete_snd_of_none (db : DB) (id : Nat)
    (h : (findByIdAndDelete db id).1 = none) : (findByIdAndDelete db id).2 = db := by
  induction db with
  | nil => simp [findByIdAndDelete]
  | cons d rest ih =>
      by_cases hd : fieldVal d "_id" = BVal.oid id
      · simp [findByIdAndDelete, hd] at h
      · have h' : (findByIdAndDelete rest id).1 = none := by
          simpa [findByIdAndDelete, hd] using h
        simp [findByIdAndDelete, hd, ih h']

theorem findByIdAndDelete_decomp (db : DB) (id : Nat) (m : Doc)
    (h : (findByIdAndDelete db id).1 = some m) :
    ∃ pre post, db = pre ++ m :: post ∧ (∀ x ∈ pre, ¬ fieldVal x "_id" = BVal.oid id) ∧
      (findByIdAndDelete db id).2 = pre ++ post := by
  induction db with
  | nil => simp [findByIdAndDelete] at h
  | cons d rest ih =>
      by_cases hd : fieldVal d "_id" = BVal.oid id
      · have hm : d = m := Option.some.inj (by simpa [findByIdAndDelete, hd] using h)
        subst hm
        exact ⟨[], rest, by simp, by simp, by simp [findByIdAndDelete, hd]⟩
      · have h' : (findByIdAndDelete rest id).1 = some m := by
          simpa [findByIdAndDelete, hd] using h
        obtain ⟨pre, post, hdb, hpre, hsnd⟩ := ih h'
        refine ⟨d :: pre, post, by simp [hdb], ?_, by simp [findByIdAndDelete, hd, hsnd]⟩
        intro x hx
        rcases List.mem_cons.mp hx with hx | hx
        · exact hx ▸ hd
        · exact hpre x hx

/-- C7: `hardDelete(id)` looks the document up by id alone — no soft-delete
criterion, so a soft-deleted document is removed just the same — emits
`DELETED` carrying exactly the removed document (or the absent value), on a
miss returns the absent value with the collection unchanged (its return type
carries no exception at all, matching the source, which never throws), and on
a hit physically removes the returned document from the collection: the
collection afterwards is exactly the original with that one occurrence cut
out. -/
theorem c7_hardDelete_contract (db : DB) (id : Nat) :
    (hardDelete db id).result = findOneDoc db (idFilter id) ∧
    (hardDelete db id).events = [("DELETED", (hardDelete db id).result)] ∧
    ((hardDelete db id).result = none → (hardDelete db id).dbAfter = db) ∧
    (∀ d ∈ db, fieldVal d "_id" = BVal.oid id → ((hardDelete db id).result).isSome) ∧
    (∀ m, (hardDelete db id).result = some m →
      ∃ pre post, db = pre ++ m :: post ∧ (hardDelete db id).dbAfter = pre ++ post) := by
  refine ⟨findByIdAndDelete_fst db id, rfl, ?_, ?_, ?_⟩
  · intro h
    exact findByIdAndDelete_snd_of_none db id h
  · intro d hd hid
    rw [show (hardDelete db id).result = findOneDoc db (idFilter id) from
      findByIdAndDelete_fst db id]
    rw [findOneDoc, List.find?_isSome]
    exact ⟨d, hd, by simp [matchesDoc_idOnly, hid]⟩
  · intro m hm
    obtain ⟨pre, post, hdb, _, hsnd⟩ := findByIdAndDelete_decomp db id m hm
    exact ⟨pre, post, hdb, hsnd⟩

/-- Closed instance of C7: deleting `demoParent` (present, id 1) removes it —
the document is returned and the collection afterwards is the original with
it cut out, here empty; deleting a missing id leaves the collection unchanged
and emits `DELETED` with the absent value. -/
theorem c7_hardDelete_contract_witness :
    (hardDelete [demoParent] 1).result = some demoParent ∧
    (hardDelete [demoParent] 2).result = none ∧
    (hardDelete [demoParent] 2).dbAfter = [demoParent] ∧
    (hardDelete [demoParent] 2).events = [("DELETED", none)] ∧
    (hardDelete [demoParent] 1).dbAfter = [] ∧
    (∃ pre post, [demoParent] = pre ++ demoParent :: post ∧
      (hardDelete [demoParent] 1).dbAfter = pre ++ post) := by
  refine ⟨?_, ?_, ?_, ?_, ?_, ?_⟩
  · exact ((c7_hardDelete_contract [demoParent] 1).1).trans (by decide)
  · exact ((c7_hardDelete_contract [demoParent] 2).1).trans (by decide)
  · exact (c7_hardDelete_contract [demoParent] 2).2.2.1
      (((c7_hardDelete_contract [demoParent] 2).1).trans (by decide))
  · exact ((c7_hardDelete_contract [demoParent] 2).2.1).trans (by decide)
  · decide
  · exact (c7_hardDelete_contract [demoParent] 1).2.2.2.2 demoParent
      (((c7_hardDelete_contract [demoParent] 1).1).trans (by decide))

theorem listSubdocuments_filterAfter (db : DB) (mn : String) (pid : Nat) (field : String)
    (f : HintedFilter) (limit skip : Int) (sort : Obj Int) :
    (listSubdocuments db mn pid field f limit skip sort).filterAfter = subFilterWrite f := by
  unfold listSubdocuments
  dsimp only
  split
  · rfl
  · split <;> rfl

theorem countSubdocuments_filterAfter_of_parent (db : DB) (mn : String) (pid : Nat)
    (field : String) (f : HintedFilter)
    (h : 0 < countDocuments db [("_id", FVal.lit (BVal.oid pid)), ("deleted", getDeletedDefaultFilter)]) :
    (countSubdocuments db mn pid field f).filterAfter = subFilterWrite f := by
  unfold countSubdocuments
  dsimp only
  rw [if_neg (by omega)]
  split <;> rfl

/-- C10: `list`, `count`, `listSubdocuments` and `countSubdocuments` write the
soft-delete default into the caller-supplied filter object itself (the
`filterAfter` component models the caller's object after the call, which then
carries the `deleted` key), `countSubdocuments` doing so once the parent check
has passed; `get` and `update` assign the default into a fresh
`Object.assign` target and hand the caller's filter back unchanged. -/
theorem c10_filter_mutation (db : DB) (mn : String) (f : HintedFilter) (u : UpdateDoc)
    (user : BVal) (now : Int) (pid : Nat) (field : String) (limit skip : Int)
    (sort : Obj Int) (limit? skip? : Option Nat) :
    (objGet f "deleted" = none →
      (countOp db f).filterAfter = objSet f "deleted" getDeletedDefaultFilter ∧
      (listOp db f limit? skip? sort).filterAfter = objSet f "deleted" getDeletedDefaultFilter ∧
      (listSubdocuments db mn pid field f limit skip sort).filterAfter
          = objSet f "deleted" getDeletedDefaultFilter ∧
      (0 < countDocuments db [("_id", FVal.lit (BVal.oid pid)), ("deleted", getDeletedDefaultFilter)] →
        (countSubdocuments db mn pid field f).filterAfter
            = objSet f "deleted" getDeletedDefaultFilter)) ∧
    (getOp db mn f).filterAfter = f ∧
    (updateOp db mn f u user now).filterAfter = f := by
  refine ⟨fun h => ⟨?_, ?_, ?_, fun hp => ?_⟩, getOp_filterAfter db mn f,
    updateOp_filterAfter db mn f u user now⟩
  · simp [countOp, countFilterWrite, h]
  · simp [listOp, listFilterWrite, h]
  · rw [listSubdocuments_filterAfter]
    simp [subFilterWrite, h]
  · rw [countSubdocuments_filterAfter_of_parent db mn pid field f hp]
    simp [subFilterWrite, h]

/-- Closed instance of C10: a filter without a `deleted` key comes back from
`count` and `countSubdocuments` carrying the default, and back from `get` and
`update` unchanged. -/
theorem c10_filter_mutation_witness :
    (countOp [demoParent] []).filterAfter = [("deleted", FVal.ne (BVal.bool true))] ∧
    (countSubdocuments [demoParent] "Test" 1 "subs" []).filterAfter
        = [("deleted", FVal.ne (BVal.bool true))] ∧
    (getOp [demoParent] "Test" [("value", FVal.lit (BVal.str "A"))]).filterAfter
        = [("value", FVal.lit (BVal.str "A"))] ∧
    (updateOp [demoParent] "Test" [("value", FVal.lit (BVal.str "A"))] {} (BVal.str "u") 3).filterAfter
        = [("value", FVal.lit (BVal.str "A"))] := by
  have h := c10_filter_mutation [demoParent] "Test" [] {} (BVal.str "u") 3 1 "subs" 9 0 [] none none
  have h2 := c10_filter_mutation [demoParent] "Test" [("value", FVal.lit (BVal.str "A"))] {}
    (BVal.str "u") 3 1 "subs" 9 0 [] none none
  refine ⟨((h.1 rfl).1).trans (by decide), ?_, h2.2.1, h2.2.2⟩
  exact (((h.1 rfl).2.2.2 (by decide)).trans (by decide))

theorem objAssign_cons_not_mem {α : Type} (t : Obj α) (k0 : String) (v0 : α) (s : Obj α)
    (h : k0 ∉ objKeys s) :
    objAssign ((k0, v0) :: t) s = (k0, v0) :: objAssign t s := by
  induction s generalizing t with
  | nil => rfl
  | cons hd tl ih =>
      have hk : hd.1 ≠ k0 := fun he => h (by simp [objKeys_cons, he])
      have htl : k0 ∉ objKeys tl := fun hm => h (by simp [objKeys_cons]; exact Or.inr hm)
      rw [objAssign_cons_eq, show objSet ((k0, v0) :: t) hd.1 hd.2
          = (k0, v0) :: objSet t hd.1 hd.2 by simp [objSet, Ne.symm hk],
        ih (objSet t hd.1 hd.2) htl, objAssign_cons_eq]

theorem defaultedConditions_cons (f : HintedFilter) (h : objGet f "deleted" = none) :
    defaultedConditions f = ("deleted", getDeletedDefaultFilter) :: objAssign [] f := by
  have hmem : "deleted" ∉ objKeys f := by
    rw [mem_objKeys_iff_objGet, h]
    simp
  exact objAssign_cons_not_mem [] "deleted" getDeletedDefaultFilter f hmem

/-- C3: `update` merges the audit pair `\x7b updatedAt: now, updatedBy: user \x7d`
into the update's `$set` — the merged `$set` keeps every caller entry and
gains `updatedAt`/`updatedBy` for the keys the caller did not supply, and is
created as exactly the audit pair when the caller sent no `$set` at all;
the soft-delete default is added to the conditions iff the filter leaves
`deleted` unset, and an explicit `deleted` value is kept; on a match the
post-update state of the matched document is returned; on no match —
including a soft-deleted target under an unset `deleted` filter, which the
augmented conditions can never match — a `DocumentNotFoundException` carrying
the model name and the serialized conditions is thrown. -/
theorem c3_update_contract (db : DB) (mn : String) (f : HintedFilter) (u : UpdateDoc)
    (user : BVal) (now : Int) (s : Obj BVal) (v : FVal) (d x : Doc) :
    (u.set? = none → effSetOf u user now = getDefaultUpdate user now) ∧
    (u.set? = some s → "updatedAt" ∉ objKeys s →
        objGet (effSetOf u user now) "updatedAt" = some (BVal.int now)) ∧
    (u.set? = some s → "updatedBy" ∉ objKeys s →
        objGet (effSetOf u user now) "updatedBy" = some user) ∧
    (u.set? = some s → (objKeys s).Nodup → ∀ k w, objGet s k = some w →
        objGet (effSetOf u user now) k = some w) ∧
    (objGet f "deleted" = none →
        objGet (defaultedConditions f) "deleted" = some getDeletedDefaultFilter) ∧
    (objGet f "deleted" = some v → (objKeys f).Nodup →
        objGet (defaultedConditions f) "deleted" = some v) ∧
    (findOneDoc db (defaultedConditions f) = some d →
        (updateOp db mn f u user now).result = .ok (applyUpdate (effUpdate u user now) d)) ∧
    (findOneDoc db (defaultedConditions f) = none →
        (updateOp db mn f u user now).result
          = .error (.documentNotFound mn (stringifyFilter (defaultedConditions f)))) ∧
    (objGet f "deleted" = none → fieldVal x "deleted" = BVal.bool true →
        matchesDoc (defaultedConditions f) x = false) := by
  refine ⟨fun h => by simp [effSetOf, h],
    fun h hk => ?_, fun h hk => ?_, fun h hnd k w hw => ?_, fun h => ?_, fun h hnd => ?_,
    fun h => ?_, fun h => ?_, fun h hx => ?_⟩
  · rw [effSetOf, h, objGet_objAssign_not_mem _ _ _ hk]
    simp [getDefaultUpdate, objGet]
  · rw [effSetOf, h, objGet_objAssign_not_mem _ _ _ hk]
    simp [getDefaultUpdate, objGet, show ¬(("updatedAt" : String) = "updatedBy") by decide]
  · rw [effSetOf, h]
    exact objGet_objAssign_mem _ s k w hnd hw
  · have hmem : "deleted" ∉ objKeys f := by
      rw [mem_objKeys_iff_objGet, h]; simp
    rw [defaultedConditions, objGet_objAssign_not_mem _ _ _ hmem]
    simp [objGet]
  · exact objGet_objAssign_mem _ f "deleted" v hnd h
  · rw [updateOp_result, h]
  · rw [updateOp_result, h]
  · rw [defaultedConditions_cons f h, matchesDoc_cons]
    simp [matchesKey, splitField_deleted, matchCritVal, getDeletedDefaultFilter, hx]

/-- Closed instance of C3: on a present, non-deleted document the update
returns the post-update state, and the effective `$set` carries the stamped
`updatedAt` alongside the caller's entry. -/
theorem c3_update_contract_witness :
    (updateOp [demoParent] "Test" [] { set? := some [("value", BVal.str "B")] }
        (BVal.str "u") 3).result
      = .ok (applyUpdate (effUpdate { set? := some [("value", BVal.str "B")] } (BVal.str "u") 3)
          demoParent) ∧
    objGet (effSetOf { set? := some [("value", BVal.str "B")] } (BVal.str "u") 3) "updatedAt"
      = some (BVal.int 3) ∧
    objGet (effSetOf { set? := some [("value", BVal.str "B")] } (BVal.str "u") 3) "value"
      = some (BVal.str "B") := by
  have h := c3_update_contract [demoParent] "Test" [] { set? := some [("value", BVal.str "B")] }
    (BVal.str "u") 3 [("value", BVal.str "B")] (FVal.lit BVal.null) demoParent demoParent
  exact ⟨h.2.2.2.2.2.2.1 (by decide), h.2.1 rfl (by decide),
    h.2.2.2.1 rfl (by decide) "value" (BVal.str "B") (by decide)⟩

theorem fields_foldl_push (l : Obj SubDoc) (d : Doc) :
    (l.foldl (fun acc kv => applyPush acc kv.1 kv.2) d).fields = d.fields := by
  induction l generalizing d with
  | nil => rfl
  | cons hd tl ih => rw [List.foldl_cons, ih]; rfl

theorem fields_foldl_pull (l : Obj HintedFilter) (d : Doc) :
    (l.foldl (fun acc kv => applyPull acc kv.1 kv.2) d).fields = d.fields := by
  induction l generalizing d with
  | nil => rfl
  | cons hd tl ih => rw [List.foldl_cons, ih]; rfl

theorem fields_applyUpdate (u : UpdateDoc) (d : Doc) :
    (applyUpdate u d).fields
      = match u.set? with
        | some s => objAssign d.fields s
        | none => d.fields := by
  unfold applyUpdate
  rcases u with ⟨s?, push, pull⟩
  rcases s? with _ | s <;>
    simp [fields_foldl_pull, fields_foldl_push, applySet]

theorem effSetOf_eq_getD (u : UpdateDoc) (user : BVal) (now : Int) :
    effSetOf u user now = objAssign (getDefaultUpdate user now) (u.set?.getD []) := by
  rcases u with ⟨s?, push, pull⟩
  rcases s? with _ | s <;> rfl

theorem updateOp_fieldVals (db : DB) (mn : String) (f : HintedFilter) (u : UpdateDoc)
    (user : BVal) (now : Int) (e : Doc)
    (hfind : findOneDoc db (defaultedConditions f) = some e)
    (hup : "updatedAt" ∉ objKeys (u.set?.getD []))
    (hcr : "createdAt" ∉ objKeys (u.set?.getD [])) :
    okDoc (updateOp db mn f u user now).result = some (applyUpdate (effUpdate u user now) e) ∧
    fieldVal (applyUpdate (effUpdate u user now) e) "updatedAt" = BVal.int now ∧
    fieldVal (applyUpdate (effUpdate u user now) e) "createdAt" = fieldVal e "createdAt" := by
  have hkeysdef : objKeys (getDefaultUpdate user now) = ["updatedAt", "updatedBy"] := rfl
  have hfields : (applyUpdate (effUpdate u user now) e).fields
      = objAssign e.fields (effSetOf u user now) := by
    rw [fields_applyUpdate]; rfl
  have hndEff : (objKeys (effSetOf u user now)).Nodup := by
    rw [effSetOf_eq_getD]
    exact objKeys_objAssign_nodup _ _ (by rw [hkeysdef]; decide)
  refine ⟨by rw [updateOp_result, hfind]; rfl, ?_, ?_⟩
  · have hget : objGet (effSetOf u user now) "updatedAt" = some (BVal.int now) := by
      rw [effSetOf_eq_getD, objGet_objAssign_not_mem _ _ _ hup]
      simp [getDefaultUpdate, objGet]
    rw [fieldVal, hfields, objGet_objAssign_mem _ _ _ _ hndEff hget]
    rfl
  · have hmem : "createdAt" ∉ objKeys (effSetOf u user now) := by
      rw [effSetOf_eq_getD, mem_objKeys_objAssign, hkeysdef]
      rintro (hmem | hmem)
      · revert hmem; decide
      · exact hcr hmem
    rw [fieldVal, hfields, objGet_objAssign_not_mem _ _ _ hmem]
    rfl

/-- The document used by the C6 counterexample: created at 1, last updated at
10, not deleted. -/
def c6doc : Doc :=
  { fields := [("_id", BVal.oid 1), ("createdAt", BVal.int 1),
               ("updatedAt", BVal.int 10), ("deleted", BVal.bool false)]
    arrays := [] }

/-- C6 counterexample: the claim says `patchById` never changes `createdAt`
and always leaves `updatedAt` ≥ its prior value — for every update payload.
A payload that itself sets `createdAt` and `updatedAt` wins over the injected
audit defaults (`Object.assign(getDefaultUpdate(user), update.$set)` puts the
caller's `$set` last), so at clock 20 the patched document's `createdAt`
moves from 1 to 5 and its `updatedAt` drops from 10 to 0. -/
theorem c6_patch_audit_counterexample :
    (okDoc (patchById [c6doc] "Test" 1 [("createdAt", BVal.int 5), ("updatedAt", BVal.int 0)]
        (BVal.str "u") 20).result).map (fun r => fieldVal r "createdAt")
      = some (BVal.int 5) ∧
    fieldVal c6doc "createdAt" = BVal.int 1 ∧
    BVal.int 5 ≠ BVal.int 1 ∧
    (okDoc (patchById [c6doc] "Test" 1 [("createdAt", BVal.int 5), ("updatedAt", BVal.int 0)]
        (BVal.str "u") 20).result).map (fun r => fieldVal r "updatedAt")
      = some (BVal.int 0) ∧
    fieldVal c6doc "updatedAt" = BVal.int 10 ∧
    ((0 : Int) < 10) := by
  refine ⟨by decide, by decide, by decide, by decide, by decide, by decide⟩

/-- C6 (amended): `patchById` and `update` stamp `updatedAt := now` on the
matched document and leave `createdAt` unchanged — hence, under a monotone
clock (`now` at least the prior `updatedAt`), `updatedAt` never decreases —
PROVIDED the caller's payload/`$set` does not itself contain `updatedAt` or
`createdAt`; when it does, the caller's values override the injected audit
defaults. -/
theorem c6_audit_fields_amended (db : DB) (mn : String) (id : Nat) (payload : Obj BVal)
    (f : HintedFilter) (u : UpdateDoc) (user : BVal) (now p : Int) (d e : Doc) :
    (findOneDoc db (defaultedConditions (idFilter id)) = some d →
      "updatedAt" ∉ objKeys payload → "createdAt" ∉ objKeys payload →
      (okDoc (patchById db mn id payload user now).result).map (fun r => fieldVal r "updatedAt")
          = some (BVal.int now) ∧
      (okDoc (patchById db mn id payload user now).result).map (fun r => fieldVal r "createdAt")
          = some (fieldVal d "createdAt")) ∧
    (findOneDoc db (defaultedConditions f) = some e →
      "updatedAt" ∉ objKeys (u.set?.getD []) → "createdAt" ∉ objKeys (u.set?.getD []) →
      (okDoc (updateOp db mn f u user now).result).map (fun r => fieldVal r "updatedAt")
          = some (BVal.int now) ∧
      (okDoc (updateOp db mn f u user now).result).map (fun r => fieldVal r "createdAt")
          = some (fieldVal e "createdAt")) ∧
    (findOneDoc db (defaultedConditions (idFilter id)) = some d →
      "updatedAt" ∉ objKeys payload → "createdAt" ∉ objKeys payload →
      fieldVal d "updatedAt" = BVal.int p → p ≤ now →
      ∀ r, okDoc (patchById db mn id payload user now).result = some r →
        ∃ q : Int, fieldVal r "updatedAt" = BVal.int q ∧ p ≤ q) := by
  refine ⟨fun hfind hup hcr => ?_, fun hfind hup hcr => ?_,
    fun hfind hup hcr hp hmono r hr => ?_⟩
  · have h := updateOp_fieldVals db mn (idFilter id) { set? := some payload } user now d hfind
      hup hcr
    have hpe : patchById db mn id payload user now
        = updateOp db mn (idFilter id) { set? := some payload } user now := rfl
    rw [hpe, h.1]
    exact ⟨by simp [h.2.1], by simp [h.2.2]⟩
  · have h := updateOp_fieldVals db mn f u user now e hfind hup hcr
    rw [h.1]
    exact ⟨by simp [h.2.1], by simp [h.2.2]⟩
  · have h := updateOp_fieldVals db mn (idFilter id) { set? := some payload } user now d hfind
      hup hcr
    have hr' : okDoc (patchById db mn id payload user now).result
        = some (applyUpdate (effUpdate { set? := some payload } user now) d) := h.1
    have : r = applyUpdate (effUpdate { set? := some payload } user now) d :=
      Option.some.inj ((hr.symm.trans hr'))
    exact ⟨now, this ▸ h.2.1, hmono⟩

/-- Closed instance of the amended C6 statement: a payload that leaves the
audit keys alone moves `updatedAt` from 10 to the clock value 20 and keeps
`createdAt` at 1. -/
theorem c6_audit_fields_amended_witness :
    (okDoc (patchById [c6doc] "Test" 1 [("value", BVal.str "B")] (BVal.str "u") 20).result).map
        (fun r => fieldVal r "updatedAt") = some (BVal.int 20) ∧
    (okDoc (patchById [c6doc] "Test" 1 [("value", BVal.str "B")] (BVal.str "u") 20).result).map
        (fun r => fieldVal r "createdAt") = some (BVal.int 1) := by
  have h := (c6_audit_fields_amended [c6doc] "Test" 1 [("value", BVal.str "B")] [] {}
      (BVal.str "u") 20 10 c6doc c6doc).1 (by decide) (by decide) (by decide)
  exact ⟨h.1, h.2.trans (by decide)⟩

/-- The soft-delete update document built by `softDelete`. -/
def sdUpdate (user : BVal) (now : Int) : UpdateDoc :=
  { set? := some [("deleted", BVal.bool true), ("deletedAt", BVal.int now), ("deletedBy", user)] }

theorem softDelete_eq (db : DB) (mn : String) (id : Nat) (user : BVal) (now : Int) :
    softDelete db mn id user now = updateOp db mn (idFilter id) (sdUpdate user now) user now := rfl

theorem getById_eq (db : DB) (mn : String) (id : Nat) :
    getById db mn id = getOp db mn (idFilter id) := rfl

theorem getOp_notFound (db : DB) (mn : String) (f : HintedFilter)
    (h : findOneDoc db (defaultedConditions f) = none) :
    isDocNotFound (getOp db mn f).result = true := by
  simp [getOp, h, isDocNotFound]

theorem listOp_deletedTrue_docs (db : DB) :
    (listOp db [("deleted", FVal.lit (BVal.bool true))] none none []).docs
      = db.filter (matchesDoc [("deleted", FVal.lit (BVal.bool true))]) := by
  have hw : listFilterWrite [("deleted", FVal.lit (BVal.bool true))]
      = [("deleted", FVal.lit (BVal.bool true))] := by decide
  simp [listOp, hw, applySort, applyPage]

theorem sd_fields (user : BVal) (now : Int) (m : Doc) :
    fieldVal (applyUpdate (effUpdate (sdUpdate user now) user now) m) "deleted"
        = BVal.bool true ∧
    fieldVal (applyUpdate (effUpdate (sdUpdate user now) user now) m) "_id"
        = fieldVal m "_id" := by
  have hfields : (applyUpdate (effUpdate (sdUpdate user now) user now) m).fields
      = objAssign m.fields (effSetOf (sdUpdate user now) user now) := by
    rw [fields_applyUpdate]; rfl
  have hkeysdef : objKeys (getDefaultUpdate user now) = ["updatedAt", "updatedBy"] := rfl
  have hkeyspl : objKeys ((sdUpdate user now).set?.getD [])
      = ["deleted", "deletedAt", "deletedBy"] := rfl
  have hnd : (objKeys (effSetOf (sdUpdate user now) user now)).Nodup := by
    rw [effSetOf_eq_getD]
    exact objKeys_objAssign_nodup _ _ (by rw [hkeysdef]; decide)
  constructor
  · have hget : objGet (effSetOf (sdUpdate user now) user now) "deleted"
        = some (BVal.bool true) := by
      rw [effSetOf_eq_getD]
      exact objGet_objAssign_mem _ _ _ _ (by rw [hkeyspl]; decide) (by simp [sdUpdate, objGet])
    rw [fieldVal, hfields, objGet_objAssign_mem _ _ _ _ hnd hget]
    rfl
  · have hmem : "_id" ∉ objKeys (effSetOf (sdUpdate user now) user now) := by
      rw [effSetOf_eq_getD, mem_objKeys_objAssign, hkeysdef, hkeyspl]
      decide
    rw [fieldVal, fieldVal, hfields, objGet_objAssign_not_mem _ _ _ hmem]

/-- C5: for a stored document with the given id (ids unique in the
collection), after `softDelete(id, user)` — whether it succeeded or the
target was already soft-deleted — `getById(id)` fails with
`DocumentNotFoundException`, and `list(\x7b deleted: true \x7d)` includes a
document with that id whose `deleted` flag is hard true. -/
theorem c5_softDelete_then_get_and_list (db : DB) (mn : String) (id : Nat) (user : BVal)
    (now : Int) (d : Doc)
    (hnodup : (db.map fun x => fieldVal x "_id").Nodup)
    (hd : d ∈ db) (hid : fieldVal d "_id" = BVal.oid id) :
    isDocNotFound (getById (softDelete db mn id user now).dbAfter mn id).result = true ∧
    ∃ x ∈ (listOp (softDelete db mn id user now).dbAfter
        [("deleted", FVal.lit (BVal.bool true))] none none []).docs,
      fieldVal x "_id" = BVal.oid id ∧ fieldVal x "deleted" = BVal.bool true := by
  rw [softDelete_eq, getById_eq]
  have hdbAfter := updateOp_dbAfter db mn (idFilter id) (sdUpdate user now) user now
  have hcl : defaultedConditions (idFilter id)
      = [("deleted", getDeletedDefaultFilter), ("_id", FVal.lit (BVal.oid id))] :=
    defaultedConditions_id id
  rcases hfind : findOneDoc db (defaultedConditions (idFilter id)) with _ | m
  · -- no document matched: the target was already soft-deleted
    have hdb' : (updateOp db mn (idFilter id) (sdUpdate user now) user now).dbAfter = db := by
      rw [hdbAfter, findOneAndUpdate_snd_of_none db _ _ hfind]
    have hall := (findOneDoc_eq_none_iff db _).mp hfind
    have hdfalse := hall d hd
    have hddel : fieldVal d "deleted" = BVal.bool true := by
      by_contra hc
      have htrue : matchesDoc [("deleted", getDeletedDefaultFilter),
          ("_id", FVal.lit (BVal.oid id))] d = true :=
        (matchesDoc_softConds id d).mpr ⟨hc, hid⟩
      rw [hcl, htrue] at hdfalse
      exact Bool.noConfusion hdfalse
    refine ⟨?_, ⟨d, ?_, hid, hddel⟩⟩
    · rw [hdb']
      exact getOp_notFound db mn (idFilter id) hfind
    · rw [hdb', listOp_deletedTrue_docs]
      exact List.mem_filter.mpr ⟨hd, (matchesDoc_deletedTrue d).mpr hddel⟩
  · -- a document matched and was soft-deleted in place
    obtain ⟨pre, post, hdbeq, hpre, hmatch, hsnd⟩ :=
      findOneAndUpdate_decomp db _ (effUpdate (sdUpdate user now) user now) m hfind
    have hdb' : (updateOp db mn (idFilter id) (sdUpdate user now) user now).dbAfter
        = pre ++ applyUpdate (effUpdate (sdUpdate user now) user now) m :: post := by
      rw [hdbAfter, hsnd]
    have hmatch' : matchesDoc [("deleted", getDeletedDefaultFilter),
        ("_id", FVal.lit (BVal.oid id))] m = true := by
      rw [← hcl]; exact hmatch
    have hmid : fieldVal m "_id" = BVal.oid id := ((matchesDoc_softConds id m).mp hmatch').2
    have hm'del := (sd_fields user now m).1
    have hm'id : fieldVal (applyUpdate (effUpdate (sdUpdate user now) user now) m) "_id"
        = BVal.oid id := (sd_fields user now m).2.trans hmid
    have hpostid : ∀ x ∈ post, fieldVal x "_id" ≠ BVal.oid id := by
      intro x hx heq
      have hmap : ((pre ++ m :: post).map fun y => fieldVal y "_id").Nodup := hdbeq ▸ hnodup
      rw [List.map_append, List.map_cons] at hmap
      have h3 := (List.nodup_cons.mp (List.nodup_append.mp hmap).2.1).1
      have hmemb : fieldVal x "_id" ∈ post.map (fun y => fieldVal y "_id") :=
        List.mem_map_of_mem _ hx
      rw [heq, ← hmid] at hmemb
      exact h3 hmemb
    have hnone' : findOneDoc
        (pre ++ applyUpdate (effUpdate (sdUpdate user now) user now) m :: post)
        (defaultedConditions (idFilter id)) = none := by
      rw [findOneDoc_eq_none_iff]
      intro x hx
      rcases List.mem_append.mp hx with hxpre | hxrest
      · exact hpre x hxpre
      · rcases List.mem_cons.mp hxrest with hxm | hxpost
        · rw [hcl, hxm]
          have hnot : ¬ (matchesDoc [("deleted", getDeletedDefaultFilter),
              ("_id", FVal.lit (BVal.oid id))]
                (applyUpdate (effUpdate (sdUpdate user now) user now) m) = true) :=
            fun hcontr => ((matchesDoc_softConds id _).mp hcontr).1 hm'del
          simpa using hnot
        · rw [hcl]
          have hnot : ¬ (matchesDoc [("deleted", getDeletedDefaultFilter),
              ("_id", FVal.lit (BVal.oid id))] x = true) :=
            fun hcontr => hpostid x hxpost ((matchesDoc_softConds id x).mp hcontr).2
          simpa using hnot
    refine ⟨?_, ⟨applyUpdate (effUpdate (sdUpdate user now) user now) m, ?_, hm'id, hm'del⟩⟩
    · rw [hdb']
      exact getOp_notFound _ mn (idFilter id) hnone'
    · rw [hdb', listOp_deletedTrue_docs]
      refine List.mem_filter.mpr ⟨?_, (matchesDoc_deletedTrue _).mpr hm'del⟩
      exact List.mem_append.mpr (Or.inr (List.mem_cons_self _ _))

/-- Closed instance of C5: soft-deleting `demoParent` (id 1) makes
`getById(1)` fail and `list(\x7b deleted: true \x7d)` return it. -/
theorem c5_softDelete_then_get_and_list_witness :
    isDocNotFound (getById (softDelete [demoParent] "Test" 1 (BVal.str "u") 20).dbAfter
        "Test" 1).result = true ∧
    ∃ x ∈ (listOp (softDelete [demoParent] "Test" 1 (BVal.str "u") 20).dbAfter
        [("deleted", FVal.lit (BVal.bool true))] none none []).docs,
      fieldVal x "_id" = BVal.oid 1 ∧ fieldVal x "deleted" = BVal.bool true :=
  c5_softDelete_then_get_and_list [demoParent] "Test" 1 (BVal.str "u") 20 demoParent
    (by decide) (by decide) (by decide)
